import Mathlib

/-!
Verification development for the technical-writing-assistant repository.

Strings from the Python source are modelled as lists of characters
(`Str := List Char`).  Each definition below is a direct shallow embedding
of the corresponding Python function, keeping the source's name where Lean
allows it.  Machine-level concerns (the GUI, the actual HTTP calls, the
docx object model) are abstracted exactly where the claims abstract them:
the retry loop is parametrised by an oracle giving each attempt's outcome,
and file saving returns the list of paths written plus an optional error.
-/

/-- Strings are modelled as lists of characters (Python code points). -/
abbrev Str := List Char

/-- Characters treated as whitespace by Python str.strip and str.split
with no arguments (ASCII whitespace: space, tab, newline, carriage
return, vertical tab, form feed). -/
def isPySpace (c : Char) : Bool :=
  c = ' ' || c = '\t' || c = '\n' || c = '\r' || c = Char.ofNat 11 || c = Char.ofNat 12

/-- Python str.strip(): remove leading and trailing whitespace. -/
def pyStrip (s : Str) : Str :=
  ((s.dropWhile isPySpace).reverse.dropWhile isPySpace).reverse

/-- Python str.startswith(p): startsWithL p s is true when p is a leading
segment of s. -/
def startsWithL : Str → Str → Bool
  | [], _ => true
  | _ :: _, [] => false
  | p :: ps, c :: cs => if p = c then startsWithL ps cs else false

/-- Python substring containment (the form p in s): containsL p s is true
when p occurs contiguously inside s. -/
def containsL (p : Str) : Str → Bool
  | [] => startsWithL p []
  | c :: cs => startsWithL p (c :: cs) || containsL p cs

/-- Python str.endswith(p), used only to state claims about paths. -/
def endsWithL (p s : Str) : Bool :=
  startsWithL p.reverse s.reverse

/-- Characters removed by the source's stripped_line.lstrip of the two
characters hash and space (function.py lines 79, 84, 89): Python lstrip
with an argument removes every leading character belonging to the set. -/
def hashSpace (c : Char) : Bool :=
  c = '#' || c = ' '

/-- The mutually exclusive line kinds of DocumentProcessor.parse_content
(function.py lines 75-109), in the order the source tests them. -/
inductive LKind where
  | h1 | h2 | h3 | chart | table | image | plain
deriving DecidableEq

/-- Branch selection of parse_content on an already stripped line,
mirroring the if/elif chain of function.py lines 75-108: heading tests
first (hash marks followed by a space), then the three literal
placeholder-marker containment tests, else plain text. -/
def lineClass (s : Str) : LKind :=
  if startsWithL ("# ".toList) s then .h1
  else if startsWithL ("## ".toList) s then .h2
  else if startsWithL ("### ".toList) s then .h3
  else if containsL ("[CHART]".toList) s then .chart
  else if containsL ("[TABLE]".toList) s then .table
  else if containsL ("[IMAGE]".toList) s then .image
  else .plain

/-- Whether a line kind is one of the three heading kinds. -/
def isHeadingKind : LKind → Bool
  | .h1 => true
  | .h2 => true
  | .h3 => true
  | _ => false

/-- Heading text as computed by the source: stripped_line.lstrip of hash
and space, i.e. drop every leading hash or space character. -/
def headingContent (s : Str) : Str :=
  s.dropWhile hashSpace

/-- Parser state of parse_content: the sections emitted so far, the
current section type and the accumulated current content lines.  The
source joins current_content with a newline when flushing; here sections
keep their content as the list of lines and the newline join is applied
in parse_content, which is the same value. -/
structure PState where
  sections : List (String × List Str)
  ctype : String
  ccontent : List Str

/-- Flush of the accumulated run (the source's
if current_content: sections.append((current_type, join(current_content)))). -/
def flushSec (st : PState) : List (String × List Str) :=
  if st.ccontent = [] then [] else [(st.ctype, st.ccontent)]

/-- One iteration of the for loop of parse_content (function.py lines
73-109) on a raw input line. -/
def stepLine (st : PState) (line : Str) : PState :=
  match lineClass (pyStrip line) with
  | .h1 => ⟨st.sections ++ flushSec st, "Heading 1", [headingContent (pyStrip line)]⟩
  | .h2 => ⟨st.sections ++ flushSec st, "Heading 2", [headingContent (pyStrip line)]⟩
  | .h3 => ⟨st.sections ++ flushSec st, "Heading 3", [headingContent (pyStrip line)]⟩
  | .chart => ⟨st.sections ++ flushSec st ++ [("Chart", [pyStrip line])], "Normal", []⟩
  | .table => ⟨st.sections ++ flushSec st ++ [("Table", [pyStrip line])], "Normal", []⟩
  | .image => ⟨st.sections ++ flushSec st ++ [("Image", [pyStrip line])], "Normal", []⟩
  | .plain => ⟨st.sections, st.ctype, st.ccontent ++ [pyStrip line]⟩

/-- parse_content on the list of input lines, producing sections whose
content is kept as a list of lines (joined with a newline by
parse_content below, as the source does at each flush). -/
def parseContentL (lines : List Str) : List (String × List Str) :=
  let fin := lines.foldl stepLine ⟨[], "Normal", []⟩
  fin.sections ++ flushSec fin

/-- Python content.split of a newline character. -/
def splitLines : Str → List Str
  | [] => [[]]
  | c :: rest =>
    if c = '\n' then [] :: splitLines rest
    else
      match splitLines rest with
      | [] => [[c]]
      | l :: ls => (c :: l) :: ls

/-- Python newline join of a list of lines. -/
def joinNL : List Str → Str
  | [] => []
  | [l] => l
  | l :: ls => l ++ '\n' :: joinNL ls

/-- DocumentProcessor.parse_content (function.py lines 68-114): split the
content on newlines, run the classifying loop, and return the ordered
list of (section type, joined section text) pairs. -/
def parse_content (content : Str) : List (String × Str) :=
  (parseContentL (splitLines content)).map (fun p => (p.1, joinNL p.2))

/-- The single line of text that each input line contributes to the
produced sections: the stripped line, with every leading hash or space
character additionally removed when the stripped line is classified as a
heading. -/
def lineText (line : Str) : Str :=
  if isHeadingKind (lineClass (pyStrip line)) then headingContent (pyStrip line)
  else pyStrip line

/-- Concatenation of a list of line lists. -/
def flatCat : List (List Str) → List Str
  | [] => []
  | l :: ls => l ++ flatCat ls

/-- All content lines of a section list, in order. -/
def sectionLines (secs : List (String × List Str)) : List Str :=
  flatCat (secs.map Prod.snd)

/-- Modelled from the spec: stripping exactly the heading marker (one to
three hash marks followed by one space) from a line, used to state the
spec's round-trip claim that section texts with markers stripped recover
the original lines. -/
def specMarkerStrip (s : Str) : Str :=
  if startsWithL ("# ".toList) s then s.drop 2
  else if startsWithL ("## ".toList) s then s.drop 3
  else if startsWithL ("### ".toList) s then s.drop 4
  else s

/-- Modelled from the spec: the text content a line should contribute
according to the spec's words, namely the trimmed line with its heading
marker (and nothing more) stripped. -/
def specLineText (line : Str) : Str :=
  specMarkerStrip (pyStrip line)

/-- Accumulator pass of Python str.split with no arguments: split into
maximal whitespace-free words, discarding all whitespace. -/
def wordsAux : Str → Str → List Str
  | [], acc => if acc = [] then [] else [acc.reverse]
  | c :: rest, acc =>
    if isPySpace c then
      if acc = [] then wordsAux rest []
      else acc.reverse :: wordsAux rest []
    else wordsAux rest (c :: acc)

/-- Python text.split() with no arguments. -/
def pyWords (s : Str) : List Str :=
  wordsAux s []

/-- Python single-space join of a word list. -/
def joinSp : List Str → Str
  | [] => []
  | [w] => w
  | w :: ws => w ++ ' ' :: joinSp ws

/-- AIPrompt.sanitize_input (ai_prompt.py lines 28-30): the single-space
join of the whitespace-split of the stripped text, truncated to the first
max_length characters (default 3000). -/
def sanitize_input (text : Str) (max_length : Nat) : Str :=
  (joinSp (pyWords (pyStrip text))).take max_length

/-- Removal of trailing whitespace only, used to state how a second
application of sanitize_input relates to the first. -/
def stripTrail (s : Str) : Str :=
  (s.reverse.dropWhile isPySpace).reverse

/-- True when the first character, if any, is not whitespace. -/
def noLeadB : Str → Bool
  | [] => true
  | c :: _ => !isPySpace c

/-- True when no two consecutive characters are both whitespace. -/
def noDoubleWs : Str → Bool
  | a :: b :: r => (!(isPySpace a && isPySpace b)) && noDoubleWs (b :: r)
  | _ => true

/-- Word lists produced by splitting: every word is nonempty and free of
whitespace characters. -/
def goodWords (ws : List Str) : Prop :=
  ∀ w ∈ ws, w ≠ [] ∧ ∀ c ∈ w, isPySpace c = false

/-- Outcome of one attempt of the completion call inside
AIPrompt.get_ai_response: a successful response, an error of one of the
two retryable classes (ValueError, TypeError), or any other error.
Errors are identified by a numeric code. -/
inductive AttemptResult where
  | ok (s : Str)
  | retryable (code : Nat)
  | fatal (code : Nat)
deriving DecidableEq

/-- Observable result of AIPrompt.get_ai_response: a returned response
string, a raised error, or the implicit None return when the loop body
never runs or falls through. -/
inductive FetchResult where
  | success (s : Str)
  | raised (code : Nat)
  | returnedNone
deriving DecidableEq

/-- The for loop of get_ai_response (ai_prompt.py lines 102-121).  The
oracle f gives the outcome of the attempt with index i; rem is the number
of loop iterations left, i the Python loop variable.  The result carries
the number of attempts actually made.  On a retryable error the source
re-raises exactly when attempt == max_retries - 1, otherwise it logs and
continues; any other error is re-raised at once; falling out of the loop
returns None. -/
def loopAux (f : Nat → AttemptResult) (max_retries : Int) : Nat → Nat → FetchResult × Nat
  | 0, _ => (.returnedNone, 0)
  | rem + 1, i =>
    match f i with
    | .ok s => (.success s, 1)
    | .fatal c => (.raised c, 1)
    | .retryable c =>
      if (i : Int) = max_retries - 1 then (.raised c, 1)
      else
        match loopAux f max_retries rem (i + 1) with
        | (r, n) => (r, n + 1)

/-- AIPrompt.get_ai_response (ai_prompt.py lines 101-121), abstracted
over the per-attempt outcome oracle.  Python range(max_retries) performs
max(0, max_retries) iterations, hence the toNat. -/
def get_ai_response (f : Nat → AttemptResult) (max_retries : Int) : FetchResult :=
  (loopAux f max_retries max_retries.toNat 0).1

/-- Number of completion-call attempts made by get_ai_response. -/
def attemptsMade (f : Nat → AttemptResult) (max_retries : Int) : Nat :=
  (loopAux f max_retries max_retries.toNat 0).2

/-- Decimal value of a digit string, as Python int() on the regex capture. -/
def natOfDigits (ds : Str) : Nat :=
  ds.foldl (fun a c => a * 10 + (c.toNat - '0'.toNat)) 0

/-- Match of the regex [TABLE:digits x digits] anchored at the start of
s, returning the two captured numbers.  Greedy digit runs are exact here
because a digit run must be followed by the literal x or closing bracket,
neither of which is a digit. -/
def matchTableAt (s : Str) : Option (Nat × Nat) :=
  if startsWithL ("[TABLE:".toList) s then
    let s1 := s.drop 7
    let d1 := s1.takeWhile Char.isDigit
    if d1 = [] then none
    else
      match s1.drop d1.length with
      | 'x' :: s3 =>
        let d2 := s3.takeWhile Char.isDigit
        if d2 = [] then none
        else
          match s3.drop d2.length with
          | ']' :: _ => some (natOfDigits d1, natOfDigits d2)
          | _ => none
      | _ => none
  else none

/-- Python re.search of the table-size pattern (function.py line 189):
first match scanning left to right. -/
def findTableSpec : Str → Option (Nat × Nat)
  | [] => none
  | c :: rest =>
    match matchTableAt (c :: rest) with
    | some rc => some rc
    | none => findTableSpec rest

/-- DocumentProcessor.add_table_placeholder (function.py lines 187-194):
the grid of cell texts of the inserted table, rows of the captured size
or the 3 by 3 default, each cell set to the fixed filler string. -/
def add_table_placeholder (content : Str) : List (List Str) :=
  let rc := match findTableSpec content with
    | none => (3, 3)
    | some rc => rc
  List.replicate rc.1 (List.replicate rc.2 ("Data".toList))

/-- Observable startup events of TechnicalWritingAssistant.__init__
(main.py lines 18-24) together with AIPrompt.__init__
(ai_prompt.py lines 14-26), in execution order. -/
inductive StartEv where
  | envOk
  | envErr
  | uiBuilt
  | procBuilt
  | aiErrGroq
  | aiErrSerper
  | aiOk
deriving DecidableEq

/-- AIPrompt.__init__: check GROQ_API_KEY, then SERPER_API_KEY, then
build the client.  The two Booleans say whether each variable is present
and nonempty. -/
def aiPromptInit (groq serper : Bool) : List StartEv :=
  if groq = false then [.aiErrGroq]
  else if serper = false then [.aiErrSerper]
  else [.aiOk]

/-- Startup event trace of TechnicalWritingAssistant.__init__:
load_environment (whose required list names only GROQ_API_KEY), then the
UserInterface construction, then the DocumentProcessor, then
AIPrompt.__init__.  A raised error ends the trace. -/
def startupTrace (groq serper : Bool) : List StartEv :=
  if groq = false then [.envErr]
  else .envOk :: .uiBuilt :: .procBuilt :: aiPromptInit groq serper

/-- os.path.splitext extension of a posix path (the part from the last
dot of the basename, empty when the basename has no dot or when every
character before that dot is itself a dot, so that dotfiles have no
extension). -/
def splitextExt (p : Str) : Str :=
  let base := (p.reverse.takeWhile (fun c => c ≠ '/')).reverse
  let revB := base.reverse
  let revExt := revB.takeWhile (fun c => c ≠ '.')
  if revExt.length = revB.length then []
  else
    let pre := (revB.drop (revExt.length + 1)).reverse
    if pre.any (fun c => c ≠ '.') then '.' :: revExt.reverse else []

/-- The lowercased extension computed by save_document (function.py lines
228-229). -/
def extLower (p : Str) : Str :=
  (splitextExt p).map Char.toLower

/-- Errors save_document can raise: the unsupported-extension ValueError
or a propagated conversion failure. -/
inductive SaveErr where
  | unsupportedExt
  | convertFailed
deriving DecidableEq

/-- Python str.replace of every occurrence, with explicit fuel; the fuel
s.length suffices for any nonempty pattern since each step consumes at
least one input character. -/
def replaceFuel (pat rep : Str) : Nat → Str → Str
  | _, [] => []
  | 0, s => s
  | fuel + 1, c :: rest =>
    if startsWithL pat (c :: rest) then
      rep ++ replaceFuel pat rep fuel ((c :: rest).drop pat.length)
    else c :: replaceFuel pat rep fuel rest

/-- Python file_path.replace(pat, rep): replace every occurrence. -/
def pyReplace (s pat rep : Str) : Str :=
  replaceFuel pat rep s.length s

/-- DocumentProcessor.convert_docx_to_pdf (function.py lines 246-253),
abstracted over whether the external converter succeeds: the files it
writes and the optional propagated error. -/
def convert_docx_to_pdf (convOk : Bool) (docxPath pdfPath : Str) : List Str × Option SaveErr :=
  if convOk then ([pdfPath], none) else ([], some .convertFailed)

/-- DocumentProcessor.save_document (function.py lines 226-244): the
ordered list of file paths written and the optional raised error.  A
.docx extension saves directly; a .pdf extension first saves the docx at
the path with every occurrence of .pdf replaced by .docx and then runs
the converter; any other extension raises without writing. -/
def save_document (convOk : Bool) (file_path : Str) : List Str × Option SaveErr :=
  let ext := extLower file_path
  if ext = (".docx".toList) then ([file_path], none)
  else if ext = (".pdf".toList) then
    let docx_path := pyReplace file_path (".pdf".toList) (".docx".toList)
    let conv := convert_docx_to_pdf convOk docx_path file_path
    (docx_path :: conv.1, conv.2)
  else ([], some .unsupportedExt)

/-! ### Round-trip structure of parse_content (claims C1, C2) -/

/-- All lines still owed to the output from a parser state: the lines of
the sections already emitted followed by the accumulated current run. -/
def pendingLines (st : PState) : List Str :=
  sectionLines st.sections ++ st.ccontent

theorem flatCat_append (a b : List (List Str)) : flatCat (a ++ b) = flatCat a ++ flatCat b := by
  induction a with
  | nil => simp [flatCat]
  | cons l ls ih => simp [flatCat, ih]

theorem sectionLines_append (a b : List (String × List Str)) :
    sectionLines (a ++ b) = sectionLines a ++ sectionLines b := by
  simp [sectionLines, flatCat_append]

theorem flatCat_flush (st : PState) :
    flatCat (List.map Prod.snd (flushSec st)) = st.ccontent := by
  by_cases hcc : st.ccontent = [] <;> simp [flushSec, hcc, flatCat]

theorem sectionLines_flush (st : PState) :
    sectionLines (st.sections ++ flushSec st) = pendingLines st := by
  simp [pendingLines, sectionLines, List.map_append, flatCat_append, flatCat_flush]

theorem pendingLines_step (st : PState) (line : Str) :
    pendingLines (stepLine st line) = pendingLines st ++ [lineText line] := by
  cases h : lineClass (pyStrip line) <;>
    simp [stepLine, h, pendingLines, lineText, isHeadingKind, sectionLines,
      List.map_append, flatCat_append, flatCat_flush, flatCat]

theorem pendingLines_foldl (lines : List Str) :
    ∀ st : PState, pendingLines (lines.foldl stepLine st) = pendingLines st ++ lines.map lineText := by
  induction lines with
  | nil => intro st; simp
  | cons l ls ih =>
    intro st
    simp only [List.foldl_cons, List.map_cons]
    rw [ih, pendingLines_step]
    simp

theorem sectionLines_parseContentL (lines : List Str) :
    sectionLines (parseContentL lines) = lines.map lineText := by
  show sectionLines (_ ++ flushSec _) = _
  rw [sectionLines_flush, pendingLines_foldl]
  simp [pendingLines, sectionLines, flatCat]

/-- C1 counterexample: for the one-line input consisting of a hash, a
space, a second hash and a letter, the produced heading text drops the
inner hash as well, so the concatenated section texts do not recover the
original non-empty line with only its heading marker stripped. -/
theorem C1_roundtrip_cex :
    (sectionLines (parseContentL (splitLines ("# #x".toList)))).filter (fun l => !l.isEmpty) ≠
      ((splitLines ("# #x".toList)).map specLineText).filter (fun l => !l.isEmpty) := by
  decide

/-- C1 (amended): parse_content is a total, order-preserving
classification: the concatenated content lines of the produced sections,
ignoring empty lines, are exactly the non-blank input lines in original
order, each trimmed, where a line recognised as a heading contributes its
text with every leading hash and space character removed (not only the
heading marker itself). -/
theorem C1_roundtrip_amended (content : Str) :
    (sectionLines (parseContentL (splitLines content))).filter (fun l => !l.isEmpty) =
      ((splitLines content).map lineText).filter (fun l => !l.isEmpty) := by
  rw [sectionLines_parseContentL]

/-- C2: on the spec's end-to-end input the code produces exactly two
sections, not four: the literal chart-marker test does not match the
annotated marker with a subtype, and a heading line is not flushed before
following plain lines, so everything up to the next heading joins the
heading-1 section. -/
theorem C2_scenario_eval :
    parse_content ("# Intro\nHello world\n[CHART:bar]\n## Details\nMore text".toList) =
      [("Heading 1", "Intro\nHello world\n[CHART:bar]".toList),
       ("Heading 2", "Details\nMore text".toList)]
    ∧ (parse_content ("# Intro\nHello world\n[CHART:bar]\n## Details\nMore text".toList)).length ≠ 4 := by
  decide

/-! ### Retry loop of get_ai_response (claims C4, C8) -/

theorem loopAux_all_retry (f : Nat → AttemptResult) (N : Int) (e : Nat → Nat)
    (hf : ∀ j, j < N.toNat → f j = .retryable (e j)) :
    ∀ (rem i : Nat), 0 < rem → (i : Int) + (rem : Int) = N →
      loopAux f N rem i = (.raised (e (N.toNat - 1)), rem) := by
  intro rem
  induction rem with
  | zero => intro i h; omega
  | succ r ih =>
    intro i _h hiN
    have hiLt : i < N.toNat := by omega
    simp only [loopAux, hf i hiLt]
    by_cases hlast : (i : Int) = N - 1
    · have hi : i = N.toNat - 1 := by omega
      rw [hi] at hlast
      rw [hi]
      have hr0 : r = 0 := by omega
      subst hr0
      simp [hlast]
    · have hr : 0 < r := by omega
      rw [if_neg hlast, ih (i + 1) hr (by push_cast; omega)]

/-- C4: with max_retries equal to N at least 1, if every attempt raises a
retryable error then exactly N attempts are made and the error of the
final attempt is re-raised; and a non-retryable error on the first
attempt is re-raised immediately after exactly one attempt. -/
theorem C4_retry_ceiling (N : Int) (hN : 1 ≤ N) (f : Nat → AttemptResult) (e : Nat → Nat) :
    ((∀ j, j < N.toNat → f j = .retryable (e j)) →
      get_ai_response f N = .raised (e (N.toNat - 1)) ∧ attemptsMade f N = N.toNat)
    ∧ (∀ c, f 0 = .fatal c →
      get_ai_response f N = .raised c ∧ attemptsMade f N = 1) := by
  constructor
  · intro hf
    have h := loopAux_all_retry f N e hf N.toNat 0 (by omega) (by omega)
    constructor <;> simp [get_ai_response, attemptsMade, h]
  · intro c hc
    obtain ⟨k, hk⟩ : ∃ k, N.toNat = k + 1 := ⟨N.toNat - 1, by omega⟩
    constructor <;> simp [get_ai_response, attemptsMade, hk, loopAux, hc]

/-- C4 witness: with two retries and every attempt failing retryably the
second error surfaces after two attempts; a fatal first error surfaces at
once after one attempt. -/
theorem C4_retry_ceiling_witness :
    (get_ai_response (fun i => .retryable i) 2 = .raised 1
      ∧ attemptsMade (fun i => .retryable i) 2 = 2)
    ∧ (get_ai_response (fun _ => .fatal 7) 2 = .raised 7
      ∧ attemptsMade (fun _ => .fatal 7) 2 = 1) :=
  ⟨(C4_retry_ceiling 2 (by decide) (fun i => .retryable i) (fun i => i)).1 (fun j _h => rfl),
   (C4_retry_ceiling 2 (by decide) (fun _ => .fatal 7) (fun i => i)).2 7 rfl⟩

/-- C8: with max_retries at most zero the loop body never runs: no
attempt is made and the function falls through to the implicit None
return. -/
theorem C8_nonpositive_retries (N : Int) (hN : N ≤ 0) (f : Nat → AttemptResult) :
    get_ai_response f N = .returnedNone ∧ attemptsMade f N = 0 := by
  have h0 : N.toNat = 0 := by omega
  constructor <;> simp [get_ai_response, attemptsMade, h0, loopAux]

/-- C8 witness at max_retries equal to minus one, with an oracle whose
every attempt would succeed: still no attempt is made and None results. -/
theorem C8_nonpositive_retries_witness :
    get_ai_response (fun _ => .ok ("hi".toList)) (-1) = .returnedNone
    ∧ attemptsMade (fun _ => .ok ("hi".toList)) (-1) = 0 :=
  C8_nonpositive_retries (-1) (by decide) (fun _ => .ok ("hi".toList))

/-! ### Table placeholder dimensions (claim C5) -/

/-- C5: for a table-placeholder line, an explicit rows-by-columns spec
captured by the regex produces exactly that many rows and cells per row,
every cell set to the fixed filler text, and absence of a spec defaults
to three rows of three cells. -/
theorem C5_table_dims (line : Str) (hT : containsL ("[TABLE]".toList) line = true) :
    (∀ R C, findTableSpec line = some (R, C) →
      (add_table_placeholder line).length = R ∧
      ∀ row ∈ add_table_placeholder line,
        row.length = C ∧ ∀ cell ∈ row, cell = "Data".toList)
    ∧ (findTableSpec line = none →
      (add_table_placeholder line).length = 3 ∧
      ∀ row ∈ add_table_placeholder line,
        row.length = 3 ∧ ∀ cell ∈ row, cell = "Data".toList) := by
  constructor
  · intro R C h
    refine ⟨by simp [add_table_placeholder, h], ?_⟩
    intro row hrow
    have hmem : row ∈ List.replicate R (List.replicate C ("Data".toList)) := by
      simpa [add_table_placeholder, h] using hrow
    have hr := List.eq_of_mem_replicate hmem
    subst hr
    exact ⟨by simp, fun cell hc => List.eq_of_mem_replicate hc⟩
  · intro h
    refine ⟨by simp [add_table_placeholder, h], ?_⟩
    intro row hrow
    have hmem : row ∈ List.replicate 3 (List.replicate 3 ("Data".toList)) := by
      simpa [add_table_placeholder, h] using hrow
    have hr := List.eq_of_mem_replicate hmem
    subst hr
    exact ⟨by simp, fun cell hc => List.eq_of_mem_replicate hc⟩

/-- C5 witness: a table line tagged 2x4 yields two rows of four filler
cells; a table line without a spec yields the 3 by 3 default. -/
theorem C5_table_dims_witness :
    ((add_table_placeholder ("[TABLE] [TABLE:2x4]".toList)).length = 2 ∧
      ∀ row ∈ add_table_placeholder ("[TABLE] [TABLE:2x4]".toList),
        row.length = 4 ∧ ∀ cell ∈ row, cell = "Data".toList)
    ∧ ((add_table_placeholder ("some [TABLE] here".toList)).length = 3 ∧
      ∀ row ∈ add_table_placeholder ("some [TABLE] here".toList),
        row.length = 3 ∧ ∀ cell ∈ row, cell = "Data".toList) :=
  ⟨(C5_table_dims ("[TABLE] [TABLE:2x4]".toList) (by decide)).1 2 4 (by decide),
   (C5_table_dims ("some [TABLE] here".toList) (by decide)).2 (by decide)⟩

/-! ### Startup credential checks (claim C6) -/

/-- C6 counterexample: with GROQ_API_KEY present and SERPER_API_KEY
absent, the startup trace constructs the user interface and only then
raises the missing-credential error, so a UI object exists when the
error is raised. -/
theorem C6_startup_cex :
    StartEv.uiBuilt ∈ startupTrace true false
    ∧ (startupTrace true false).getLast? = some .aiErrSerper := by
  decide

/-- C6 (amended): a missing GROQ_API_KEY is fatal before any UI
construction, but a missing SERPER_API_KEY (with GROQ_API_KEY present)
raises only inside the AI client initialisation, after the UI object has
been constructed; with both present startup completes without error. -/
theorem C6_startup_order (groq serper : Bool) :
    (groq = false →
      startupTrace groq serper = [.envErr] ∧ StartEv.uiBuilt ∉ startupTrace groq serper)
    ∧ (groq = true → serper = false →
      startupTrace groq serper = [.envOk, .uiBuilt, .procBuilt, .aiErrSerper])
    ∧ (groq = true → serper = true →
      startupTrace groq serper = [.envOk, .uiBuilt, .procBuilt, .aiOk]) := by
  cases groq <;> cases serper <;> simp [startupTrace, aiPromptInit]

/-- C6 witness: the three startup traces at concrete credential
presence values. -/
theorem C6_startup_order_witness :
    startupTrace false true = [.envErr]
    ∧ startupTrace true false = [.envOk, .uiBuilt, .procBuilt, .aiErrSerper]
    ∧ startupTrace true true = [.envOk, .uiBuilt, .procBuilt, .aiOk] :=
  ⟨((C6_startup_order false true).1 rfl).1,
   (C6_startup_order true false).2.1 rfl rfl,
   (C6_startup_order true true).2.2 rfl rfl⟩

/-! ### Saving documents (claims C7, C10) -/

/-- C7: a target path whose lowercased extension is neither .docx nor
.pdf makes save_document raise the unsupported-extension error and write
no file at all. -/
theorem C7_unsupported_ext (convOk : Bool) (p : Str)
    (h1 : extLower p ≠ ".docx".toList) (h2 : extLower p ≠ ".pdf".toList) :
    save_document convOk p = ([], some .unsupportedExt) := by
  simp only [save_document]
  rw [if_neg h1, if_neg h2]

/-- C7 witness at the path notes.txt: error raised, nothing written. -/
theorem C7_unsupported_ext_witness :
    save_document true ("notes.txt".toList) = ([], some .unsupportedExt) :=
  C7_unsupported_ext true ("notes.txt".toList) (by decide) (by decide)

/-- C10 counterexample: the path consisting of the bare dotfile name
.pdf ends in .pdf, yet os.path.splitext assigns it no extension, so
save_document raises the unsupported-extension error and writes no
docx file at all. -/
theorem C10_pdf_cex :
    endsWithL (".pdf".toList) (".pdf".toList) = true
    ∧ save_document false (".pdf".toList) = ([], some .unsupportedExt)
    ∧ save_document true (".pdf".toList) = ([], some .unsupportedExt) := by
  decide

/-- C10 (amended): for every path whose splitext extension lowercases to
.pdf, save_document first writes the docx file at the path obtained by
replacing every occurrence of .pdf with .docx; when the conversion step
fails, that docx write remains the only write and the conversion error
propagates; when conversion succeeds the docx path is still the first
write. -/
theorem C10_pdf_writes_docx (p : Str) (h : extLower p = ".pdf".toList) :
    (save_document false p).1 = [pyReplace p (".pdf".toList) (".docx".toList)]
    ∧ (save_document false p).2 = some .convertFailed
    ∧ (save_document true p).1.head? = some (pyReplace p (".pdf".toList) (".docx".toList)) := by
  have hne : extLower p ≠ ".docx".toList := by rw [h]; decide
  refine ⟨?_, ?_, ?_⟩ <;> simp [save_document, convert_docx_to_pdf, h, hne]

/-- C10 witness at the path report.pdf. -/
theorem C10_pdf_writes_docx_witness :
    (save_document false ("report.pdf".toList)).1 =
      [pyReplace ("report.pdf".toList) (".pdf".toList) (".docx".toList)]
    ∧ (save_document false ("report.pdf".toList)).2 = some .convertFailed
    ∧ (save_document true ("report.pdf".toList)).1.head? =
      some (pyReplace ("report.pdf".toList) (".pdf".toList) (".docx".toList)) :=
  C10_pdf_writes_docx ("report.pdf".toList) (by decide)

/-! ### Heading recognition rules (claim C9) -/

theorem notHeading_of_four (n : Nat) (t : Str) (h4 : 4 ≤ n) :
    isHeadingKind (lineClass (List.replicate n '#' ++ t)) = false := by
  obtain ⟨k, rfl⟩ : ∃ k, n = 4 + k := ⟨n - 4, by omega⟩
  have hrep : List.replicate (4 + k) '#' ++ t
      = '#' :: '#' :: '#' :: '#' :: (List.replicate k '#' ++ t) := by
    rw [List.replicate_add]
    rfl
  rw [hrep]
  simp [lineClass, startsWithL]
  split <;> try rfl
  split <;> try rfl
  split <;> rfl

theorem notHeading_of_noSpace (n : Nat) (t : Str)
    (hh : t.head? ≠ some '#') (hs : t.head? ≠ some ' ') :
    isHeadingKind (lineClass (List.replicate n '#' ++ t)) = false := by
  rcases Nat.lt_or_ge n 4 with h4 | h4
  · interval_cases n <;>
      rcases t with _ | ⟨c, t2⟩ <;>
      first
      | (simp [lineClass, startsWithL]; (repeat' split) <;> rfl)
      | (have hc : ¬('#' = c) := by intro h; exact hh (by simp [h.symm])
         have hsp : ¬(' ' = c) := by intro h; exact hs (by simp [h.symm])
         simp [lineClass, startsWithL, hc, hsp]
         (repeat' split) <;> rfl)
  · exact notHeading_of_four n t h4

theorem plain_of_noMarker (s : Str) (hH : isHeadingKind (lineClass s) = false)
    (hC : containsL ("[CHART]".toList) s = false)
    (hT2 : containsL ("[TABLE]".toList) s = false)
    (hI : containsL ("[IMAGE]".toList) s = false) :
    lineClass s = .plain := by
  by_cases b1 : startsWithL ("# ".toList) s = true
  · exfalso
    unfold lineClass at hH
    rw [if_pos b1] at hH
    simp [isHeadingKind] at hH
  · by_cases b2 : startsWithL ("## ".toList) s = true
    · exfalso
      unfold lineClass at hH
      rw [if_neg b1, if_pos b2] at hH
      simp [isHeadingKind] at hH
    · by_cases b3 : startsWithL ("### ".toList) s = true
      · exfalso
        unfold lineClass at hH
        rw [if_neg b1, if_neg b2, if_pos b3] at hH
        simp [isHeadingKind] at hH
      · unfold lineClass
        rw [if_neg b1, if_neg b2, if_neg b3, hC, hT2, hI]
        simp

theorem heading_positive (n : Nat) (t2 : Str) (h1 : 1 ≤ n) (h3 : n ≤ 3) :
    lineClass (List.replicate n '#' ++ ' ' :: t2) =
      (if n = 1 then .h1 else if n = 2 then .h2 else .h3)
    ∧ headingContent (List.replicate n '#' ++ ' ' :: t2) =
      (' ' :: t2).dropWhile hashSpace := by
  interval_cases n <;>
    constructor <;>
    simp [lineClass, startsWithL, headingContent, hashSpace, List.dropWhile]

/-- C9 counterexample: the line of four hash marks followed by a chart
marker has four or more leading hash marks yet is classified as a chart
placeholder, not as plain text. -/
theorem C9_heading_cex :
    ("#### [CHART]".toList = List.replicate 4 '#' ++ (" [CHART]".toList))
    ∧ lineClass ("#### [CHART]".toList) = .chart
    ∧ LKind.chart ≠ LKind.plain := by
  decide

/-- C9 (amended): for a stripped line written as its maximal run of n
leading hash marks followed by the rest t, four or more leading hashes,
or a nonempty run not followed by a space, prevent heading
classification; such a non-heading line is plain text unless it contains
one of the three placeholder marker tokens; and a run of one to three
hashes followed by a space is a heading of that level whose text drops
every further leading hash and space character of the rest as well. -/
theorem C9_heading_rules (n : Nat) (t : Str) (hh : t.head? ≠ some '#') :
    (4 ≤ n → isHeadingKind (lineClass (List.replicate n '#' ++ t)) = false)
    ∧ (t.head? ≠ some ' ' →
        isHeadingKind (lineClass (List.replicate n '#' ++ t)) = false)
    ∧ (∀ s : Str, isHeadingKind (lineClass s) = false →
        containsL ("[CHART]".toList) s = false →
        containsL ("[TABLE]".toList) s = false →
        containsL ("[IMAGE]".toList) s = false →
        lineClass s = .plain)
    ∧ (1 ≤ n → n ≤ 3 → ∀ t2, t = ' ' :: t2 →
        lineClass (List.replicate n '#' ++ t) =
          (if n = 1 then .h1 else if n = 2 then .h2 else .h3)
        ∧ headingContent (List.replicate n '#' ++ t) = t.dropWhile hashSpace) := by
  refine ⟨fun h4 => notHeading_of_four n t h4,
          fun hs => notHeading_of_noSpace n t hh hs,
          plain_of_noMarker,
          fun h1 h3 t2 ht => ?_⟩
  subst ht
  exact heading_positive n t2 h1 h3

/-- C9 witness: four hashes then space-x is no heading; two hashes with
no following space is no heading; the word hello is plain; two hashes
then space-Intro is a heading 2 whose text is Intro. -/
theorem C9_heading_rules_witness :
    isHeadingKind (lineClass (List.replicate 4 '#' ++ (" x".toList))) = false
    ∧ isHeadingKind (lineClass (List.replicate 2 '#' ++ ("x".toList))) = false
    ∧ lineClass ("hello".toList) = .plain
    ∧ (lineClass (List.replicate 2 '#' ++ (" Intro".toList)) = .h2
        ∧ headingContent (List.replicate 2 '#' ++ (" Intro".toList)) =
          (" Intro".toList).dropWhile hashSpace) :=
  ⟨(C9_heading_rules 4 (" x".toList) (by decide)).1 (by decide),
   (C9_heading_rules 2 ("x".toList) (by decide)).2.1 (by decide),
   (C9_heading_rules 1 ([' ']) (by decide)).2.2.1 ("hello".toList)
     (by decide) (by decide) (by decide) (by decide),
   (C9_heading_rules 2 (" Intro".toList) (by decide)).2.2.2 (by decide) (by decide)
     ("Intro".toList) (by decide)⟩

/-! ### Sanitization (claim C3) -/

theorem wordsAux_word (w : Str) :
    ∀ (rest acc : Str), (∀ c ∈ w, isPySpace c = false) →
      wordsAux (w ++ rest) acc = wordsAux rest (w.reverse ++ acc) := by
  induction w with
  | nil => intro rest acc _h; rfl
  | cons c w2 ih =>
    intro rest acc hw
    have hc : isPySpace c = false := hw c (by simp)
    have hw2 : ∀ d ∈ w2, isPySpace d = false := fun d hd => hw d (by simp [hd])
    simp only [List.cons_append, wordsAux, hc, List.append_eq]
    rw [if_neg Bool.false_ne_true, ih rest (c :: acc) hw2]
    simp

theorem wordsAux_space (t acc : Str) (hacc : acc ≠ []) :
    wordsAux (' ' :: t) acc = acc.reverse :: wordsAux t [] := by
  simp [wordsAux, isPySpace, hacc]

theorem pyWords_joinSp (ws : List Str) (h : goodWords ws) :
    pyWords (joinSp ws) = ws := by
  induction ws with
  | nil => rfl
  | cons w ws2 ih =>
    have hw : w ≠ [] := (h w (by simp)).1
    have hwc : ∀ c ∈ w, isPySpace c = false := (h w (by simp)).2
    have hws2 : goodWords ws2 := fun v hv => h v (by simp [hv])
    cases ws2 with
    | nil =>
      show wordsAux (joinSp [w]) [] = [w]
      have : joinSp [w] = w ++ [] := by simp [joinSp]
      rw [this, wordsAux_word w [] [] hwc]
      simp [wordsAux, hw]
    | cons v vs =>
      show wordsAux (joinSp (w :: v :: vs)) [] = w :: v :: vs
      have hj : joinSp (w :: v :: vs) = w ++ ' ' :: joinSp (v :: vs) := rfl
      rw [hj, wordsAux_word w (' ' :: joinSp (v :: vs)) [] hwc]
      rw [List.append_nil, wordsAux_space _ _ (by simp [hw])]
      rw [List.reverse_reverse]
      exact congrArg (w :: ·) (ih hws2)

theorem wordsAux_good (s : Str) :
    ∀ acc : Str, (∀ c ∈ acc, isPySpace c = false) → goodWords (wordsAux s acc) := by
  induction s with
  | nil =>
    intro acc hacc
    by_cases h : acc = []
    · simp [wordsAux, h, goodWords]
    · intro w hw
      simp [wordsAux, h] at hw
      subst hw
      refine ⟨by simp [h], fun c hc => hacc c (by simpa using hc)⟩
  | cons c rest ih =>
    intro acc hacc
    by_cases hc : isPySpace c = true
    · by_cases h : acc = []
    -- space, empty accumulator: skip
      · simpa [wordsAux, hc, h] using ih [] (by simp)
      · intro w hw
        rw [show wordsAux (c :: rest) acc = if isPySpace c then (if acc = [] then wordsAux rest [] else acc.reverse :: wordsAux rest []) else wordsAux rest (c :: acc) from rfl] at hw
        rw [hc] at hw
        simp only [if_true, h, if_false] at hw
        rcases List.mem_cons.mp hw with hw1 | hw2
        · subst hw1
          refine ⟨by simp [h], fun d hd => hacc d (by simpa using hd)⟩
        · exact ih [] (by simp) w hw2
    · have hc2 : isPySpace c = false := by revert hc; cases isPySpace c <;> simp
      have : wordsAux (c :: rest) acc = wordsAux rest (c :: acc) := by
        simp [wordsAux, hc2]
      rw [this]
      refine ih (c :: acc) ?_
      intro d hd
      rcases List.mem_cons.mp hd with h1 | h2
      · subst h1; exact hc2
      · exact hacc d h2

theorem pyWords_good (s : Str) : goodWords (pyWords s) :=
  wordsAux_good s [] (by simp)

theorem joinSp_ne_nil (w : Str) (ws : List Str) (hw : w ≠ []) :
    joinSp (w :: ws) ≠ [] := by
  cases ws with
  | nil => simpa [joinSp] using hw
  | cons v vs => cases w with
    | nil => exact absurd rfl hw
    | cons c w2 => simp [joinSp]

theorem head_joinSp (ws : List Str) (h : goodWords ws) :
    ∀ c, (joinSp ws).head? = some c → isPySpace c = false := by
  cases ws with
  | nil => intro c hc; simp [joinSp] at hc
  | cons w ws2 =>
    intro c hc
    have hw : w ≠ [] := (h w (by simp)).1
    have hwc : ∀ d ∈ w, isPySpace d = false := (h w (by simp)).2
    cases w with
    | nil => exact absurd rfl hw
    | cons d w2 =>
      have hd : (joinSp ((d :: w2) :: ws2)).head? = some d := by
        cases ws2 <;> simp [joinSp]
      rw [hd] at hc
      injection hc with hc2
      rw [← hc2]
      exact hwc d (by simp)

theorem revHead_joinSp (ws : List Str) (h : goodWords ws) :
    ∀ c, (joinSp ws).reverse.head? = some c → isPySpace c = false := by
  induction ws with
  | nil => intro c hc; simp [joinSp] at hc
  | cons w ws2 ih =>
    intro c hc
    have hw : w ≠ [] := (h w (by simp)).1
    have hwc : ∀ d ∈ w, isPySpace d = false := (h w (by simp)).2
    have hws2 : goodWords ws2 := fun v hv => h v (by simp [hv])
    cases ws2 with
    | nil =>
      simp only [joinSp] at hc
      have : c ∈ w.reverse := List.mem_of_mem_head? hc
      exact hwc c (by simpa using this)
    | cons v vs =>
      have hj : joinSp (w :: v :: vs) = w ++ ' ' :: joinSp (v :: vs) := rfl
      rw [hj, List.reverse_append] at hc
      have hne : (' ' :: joinSp (v :: vs)).reverse ≠ [] := by simp
      rw [List.head?_append_of_ne_nil _ hne] at hc
      have hvne : joinSp (v :: vs) ≠ [] := joinSp_ne_nil v vs (hws2 v (by simp)).1
      rw [List.reverse_cons, List.head?_append_of_ne_nil _ (by simpa using hvne)] at hc
      exact ih hws2 c hc

theorem dropWhile_id_of_head (l : Str) (h : ∀ c, l.head? = some c → isPySpace c = false) :
    l.dropWhile isPySpace = l := by
  cases l with
  | nil => rfl
  | cons c rest =>
    have hc := h c rfl
    simp [List.dropWhile_cons, hc]

theorem pyStrip_joinSp (ws : List Str) (h : goodWords ws) :
    pyStrip (joinSp ws) = joinSp ws := by
  unfold pyStrip
  rw [dropWhile_id_of_head _ (head_joinSp ws h),
      dropWhile_id_of_head _ (revHead_joinSp ws h), List.reverse_reverse]

theorem stripTrail_joinSp (ws : List Str) (h : goodWords ws) :
    stripTrail (joinSp ws) = joinSp ws := by
  unfold stripTrail
  rw [dropWhile_id_of_head _ (revHead_joinSp ws h), List.reverse_reverse]

theorem head?_take (l : Str) (m : Nat) (c : Char) (h : (l.take m).head? = some c) :
    l.head? = some c := by
  cases l <;> cases m <;> simp_all

theorem take_joinSp (ws : List Str) (h : goodWords ws) :
    ∀ m : Nat, ∃ ws2, goodWords ws2 ∧
      ((joinSp ws).take m = joinSp ws2 ∨ (joinSp ws).take m = joinSp ws2 ++ [' ']) := by
  induction ws with
  | nil => intro m; exact ⟨[], by simp [goodWords], Or.inl (by simp [joinSp])⟩
  | cons w ws2 ih =>
    intro m
    have hw : w ≠ [] := (h w (by simp)).1
    have hwc : ∀ c ∈ w, isPySpace c = false := (h w (by simp)).2
    have hws2 : goodWords ws2 := fun v hv => h v (by simp [hv])
    cases ws2 with
    | nil =>
      by_cases hm : w.take m = []
      · exact ⟨[], by simp [goodWords], Or.inl (by simp [joinSp, hm])⟩
      · refine ⟨[w.take m], ?_, Or.inl (by simp [joinSp])⟩
        intro v hv
        simp at hv
        subst hv
        exact ⟨hm, fun c hc => hwc c (List.mem_of_mem_take hc)⟩
    | cons v vs =>
      have hj : joinSp (w :: v :: vs) = w ++ ' ' :: joinSp (v :: vs) := rfl
      rcases Nat.lt_or_ge m (w.length + 1) with hm | hm
      · have ht : (joinSp (w :: v :: vs)).take m = w.take m := by
          rw [hj, List.take_append_eq_append_take]
          have h0 : m - w.length = 0 := by omega
          simp [h0]
        by_cases hemp : w.take m = []
        · exact ⟨[], by simp [goodWords], Or.inl (by rw [ht, hemp]; rfl)⟩
        · refine ⟨[w.take m], ?_, Or.inl (by rw [ht]; rfl)⟩
          intro u hu
          simp at hu
          subst hu
          exact ⟨hemp, fun c hc => hwc c (List.mem_of_mem_take hc)⟩
      · have hwt : w.take m = w := List.take_of_length_le (by omega)
        have ht : (joinSp (w :: v :: vs)).take m
            = w ++ (' ' :: joinSp (v :: vs)).take (m - w.length) := by
          rw [hj, List.take_append_eq_append_take, hwt]
        obtain ⟨k, hk⟩ : ∃ k, m - w.length = k + 1 := ⟨m - w.length - 1, by omega⟩
        rw [hk, List.take_succ_cons] at ht
        obtain ⟨us, hus, hcase⟩ := ih hws2 k
        rcases hcase with hL | hR
        · cases us with
          | nil =>
            refine ⟨[w], ?_, Or.inr ?_⟩
            · intro u hu; simp at hu; subst hu; exact ⟨hw, hwc⟩
            · rw [ht, hL]
              simp [joinSp]
          | cons u us2 =>
            refine ⟨w :: u :: us2, ?_, Or.inl ?_⟩
            · intro x hx
              rcases List.mem_cons.mp hx with h1 | h2
              · subst h1; exact ⟨hw, hwc⟩
              · exact hus x h2
            · rw [ht, hL]
              rfl
        · cases us with
          | nil =>
            exfalso
            have hhead : ((joinSp (v :: vs)).take k).head? = some ' ' := by
              rw [hR]
              simp [joinSp]
            have hh2 := head?_take (joinSp (v :: vs)) k ' ' hhead
            have := head_joinSp (v :: vs) hws2 ' ' hh2
            simp [isPySpace] at this
          | cons u us2 =>
            refine ⟨w :: u :: us2, ?_, Or.inr ?_⟩
            · intro x hx
              rcases List.mem_cons.mp hx with h1 | h2
              · subst h1; exact ⟨hw, hwc⟩
              · exact hus x h2
            · rw [ht, hR]
              show w ++ ' ' :: (joinSp (u :: us2) ++ [' ']) = joinSp (w :: u :: us2) ++ [' ']
              show w ++ ' ' :: (joinSp (u :: us2) ++ [' ']) = (w ++ ' ' :: joinSp (u :: us2)) ++ [' ']
              simp

theorem noLeadB_take (l : Str) (m : Nat) (h : noLeadB l = true) :
    noLeadB (l.take m) = true := by
  cases l <;> cases m <;> simp_all [noLeadB]

theorem noLeadB_joinSp (ws : List Str) (h : goodWords ws) :
    noLeadB (joinSp ws) = true := by
  cases hj : joinSp ws with
  | nil => rfl
  | cons c rest =>
    have hc := head_joinSp ws h c (by rw [hj]; rfl)
    simp [noLeadB, hc]

theorem noDoubleWs_take (l : Str) : ∀ m, noDoubleWs l = true → noDoubleWs (l.take m) = true := by
  induction l with
  | nil => intro m _h; simp [noDoubleWs]
  | cons a l2 ih =>
    intro m h
    cases m with
    | zero => rfl
    | succ m2 =>
      cases l2 with
      | nil => simp [noDoubleWs]
      | cons b r =>
        rw [show noDoubleWs (a :: b :: r)
            = ((!(isPySpace a && isPySpace b)) && noDoubleWs (b :: r)) from rfl] at h
        have hpair := Bool.and_eq_true _ _ |>.mp h
        have h1 := hpair.1
        have h2 := hpair.2
        cases m2 with
        | zero => simp [noDoubleWs]
        | succ m3 =>
          have hsh : (a :: b :: r).take (m3 + 2) = a :: b :: r.take m3 := by simp
          rw [hsh]
          have h3 : noDoubleWs ((b :: r).take (m3 + 1)) = true := ih (m3 + 1) h2
          have hsh2 : (b :: r).take (m3 + 1) = b :: r.take m3 := by simp
          rw [hsh2] at h3
          show ((!(isPySpace a && isPySpace b)) && noDoubleWs (b :: r.take m3)) = true
          rw [h1, h3]
          rfl

theorem nd_append_word (w rest : Str) (hw : ∀ c ∈ w, isPySpace c = false)
    (hr : noDoubleWs rest = true) : noDoubleWs (w ++ rest) = true := by
  induction w with
  | nil => simpa
  | cons c w2 ih =>
    have hc : isPySpace c = false := hw c (by simp)
    have hw2 : ∀ d ∈ w2, isPySpace d = false := fun d hd => hw d (by simp [hd])
    have ih2 := ih hw2
    rw [List.cons_append]
    cases hsh : w2 ++ rest with
    | nil => rfl
    | cons x xs =>
      show ((!(isPySpace c && isPySpace x)) && noDoubleWs (x :: xs)) = true
      rw [hc, ← hsh, hsh]
      simpa using (by rw [← hsh]; exact ih2)

theorem noDoubleWs_joinSp (ws : List Str) (h : goodWords ws) :
    noDoubleWs (joinSp ws) = true := by
  induction ws with
  | nil => rfl
  | cons w ws2 ih =>
    have hwc : ∀ c ∈ w, isPySpace c = false := (h w (by simp)).2
    have hws2 : goodWords ws2 := fun v hv => h v (by simp [hv])
    cases ws2 with
    | nil =>
      have := nd_append_word w [] hwc rfl
      simpa [joinSp] using this
    | cons v vs =>
      have hj : joinSp (w :: v :: vs) = w ++ ' ' :: joinSp (v :: vs) := rfl
      rw [hj]
      apply nd_append_word w _ hwc
      cases hJ : joinSp (v :: vs) with
      | nil => exact absurd hJ (joinSp_ne_nil v vs (hws2 v (by simp)).1)
      | cons x xs =>
        have hx : isPySpace x = false := head_joinSp (v :: vs) hws2 x (by rw [hJ]; rfl)
        have hrec : noDoubleWs (x :: xs) = true := by rw [← hJ]; exact ih hws2
        show ((!(isPySpace ' ' && isPySpace x)) && noDoubleWs (x :: xs)) = true
        rw [hx, hrec]
        rfl

theorem sanitize_len (s : Str) (m : Nat) : (sanitize_input s m).length ≤ m := by
  simp [sanitize_input, List.length_take]

theorem sanitize_twice (s : Str) (m : Nat) :
    sanitize_input (sanitize_input s m) m = stripTrail (sanitize_input s m) := by
  have hgood : goodWords (pyWords (pyStrip s)) := pyWords_good (pyStrip s)
  obtain ⟨ws2, hg2, hcase⟩ := take_joinSp (pyWords (pyStrip s)) hgood m
  have hlen : (sanitize_input s m).length ≤ m := sanitize_len s m
  rcases hcase with hL | hR
  · have ht : sanitize_input s m = joinSp ws2 := hL
    rw [ht] at hlen ⊢
    rw [stripTrail_joinSp ws2 hg2]
    unfold sanitize_input
    rw [pyStrip_joinSp ws2 hg2, pyWords_joinSp ws2 hg2]
    exact List.take_of_length_le hlen
  · have ht : sanitize_input s m = joinSp ws2 ++ [' '] := hR
    rw [ht] at hlen ⊢
    cases ws2 with
    | nil =>
      show sanitize_input ([] ++ [' ']) m = stripTrail ([] ++ [' '])
      rw [List.nil_append]
      have h1 : pyStrip [' '] = [] := by
        unfold pyStrip
        simp [List.dropWhile, isPySpace]
      have h2 : stripTrail [' '] = [] := by
        unfold stripTrail
        simp [List.dropWhile, isPySpace]
      unfold sanitize_input
      rw [h1, h2]
      simp [pyWords, wordsAux, joinSp]
    | cons u us =>
      have hne : joinSp (u :: us) ≠ [] := joinSp_ne_nil u us (hg2 u (by simp)).1
      have htail : List.dropWhile isPySpace ((joinSp (u :: us) ++ [' ']).reverse)
          = (joinSp (u :: us)).reverse := by
        rw [List.reverse_append]
        show List.dropWhile isPySpace (' ' :: (joinSp (u :: us)).reverse) = _
        rw [List.dropWhile_cons_of_pos (by simp [isPySpace])]
        exact dropWhile_id_of_head _ (revHead_joinSp (u :: us) hg2)
      have hst : stripTrail (joinSp (u :: us) ++ [' ']) = joinSp (u :: us) := by
        unfold stripTrail
        rw [htail, List.reverse_reverse]
      have hlead : ∀ c, (joinSp (u :: us) ++ [' ']).head? = some c → isPySpace c = false := by
        intro c hc
        rw [List.head?_append_of_ne_nil _ hne] at hc
        exact head_joinSp (u :: us) hg2 c hc
      have hps : pyStrip (joinSp (u :: us) ++ [' ']) = joinSp (u :: us) := by
        unfold pyStrip
        rw [dropWhile_id_of_head _ hlead, htail, List.reverse_reverse]
      rw [hst]
      unfold sanitize_input
      rw [hps, pyWords_joinSp (u :: us) hg2]
      apply List.take_of_length_le
      have : (joinSp (u :: us)).length + 1 ≤ m := by simpa using hlen
      omega

/-- C3 counterexample: sanitize_input of the five characters a b space
c d with maximum length three returns the three characters a b space,
which carries trailing whitespace, and a second application returns the
two characters a b, so the function is not idempotent and its output can
end in whitespace. -/
theorem C3_sanitize_cex :
    sanitize_input ("ab cd".toList) 3 = "ab ".toList
    ∧ sanitize_input (sanitize_input ("ab cd".toList) 3) 3 = "ab".toList
    ∧ sanitize_input (sanitize_input ("ab cd".toList) 3) 3 ≠ sanitize_input ("ab cd".toList) 3
    ∧ isPySpace (("ab ".toList).getLast (by decide)) = true := by
  refine ⟨by decide, by decide, by decide, by decide⟩

/-- C3 (amended): for every string and maximum length the output of
sanitize_input never exceeds the maximum, has no leading whitespace and
no two consecutive whitespace characters; but truncation can cut
immediately after an inter-word space, leaving trailing whitespace, and
a second application equals the first with that trailing whitespace
removed, so idempotence holds exactly when the output has no trailing
whitespace (in particular whenever no truncation occurs). -/
theorem C3_sanitize_props (s : Str) (m : Nat) :
    (sanitize_input s m).length ≤ m
    ∧ noLeadB (sanitize_input s m) = true
    ∧ noDoubleWs (sanitize_input s m) = true
    ∧ sanitize_input (sanitize_input s m) m = stripTrail (sanitize_input s m) := by
  refine ⟨sanitize_len s m, ?_, ?_, sanitize_twice s m⟩
  · exact noLeadB_take _ m (noLeadB_joinSp _ (pyWords_good (pyStrip s)))
  · exact noDoubleWs_take _ m (noDoubleWs_joinSp _ (pyWords_good (pyStrip s)))
